import Mathlib

/-!
# Verification of the LinkedIn comments email scraper

A shallow embedding of `linkedin_scraper.py` (class `LinkedInCommentsScraper`
and `main`) together with theorems settling the specification claims.

The embedding models:
* `extract_emails_from_text` (lines 56-68): Python `re.findall` with the
  pattern `\b[A-Za-z0-9._%+-]+@[A-Za-z0-9.-]+\.[A-Z|a-z]{2,}\b` followed by
  `set(...)`.  The regex scan is embedded as a backtracking matcher
  specialised to this pattern, with Python's leftmost, non-overlapping,
  greedy-with-backtracking semantics.  `\w` (hence `\b`) is modelled for
  ASCII text as `[A-Za-z0-9_]`.
* `validate_linkedin_url` (lines 70-84): `urllib.parse.urlparse` restricted
  to the fields the scraper reads (`netloc`, `path`), including the
  `ValueError` CPython raises on an authority with mismatched brackets.
* `load_all_comments` (lines 133-186): the scroll/measure loop as a step
  function on the `(last_height, attempts)` state, driven by the sequence of
  measured document heights.
* `scrape_comments` (lines 188-264): the harvesting passes over the parsed
  page (comment selectors, whole-page fallback, script tags).
* `save_emails_to_file` (lines 266-280) and the tail of `main`
  (lines 320-328): the content written to the output file.
-/

/-! ## Character classes of the email regex -/

/-- ASCII letter, the class `[A-Za-z]`. -/
def isAsciiLetter (c : Char) : Bool :=
  (('A' ≤ c) && (c ≤ 'Z')) || (('a' ≤ c) && (c ≤ 'z'))

/-- ASCII digit, the class `[0-9]`. -/
def isAsciiDigit (c : Char) : Bool :=
  ('0' ≤ c) && (c ≤ '9')

/-- Python `\w` on ASCII text: `[A-Za-z0-9_]`.  (`\b` is defined from it.) -/
def isWordChar (c : Char) : Bool :=
  isAsciiLetter c || isAsciiDigit c || c = '_'

/-- The local-part class `[A-Za-z0-9._%+-]` of the source's email pattern. -/
def localChar (c : Char) : Bool :=
  isAsciiLetter c || isAsciiDigit c || c = '.' || c = '_' || c = '%' || c = '+' || c = '-'

/-- The domain class `[A-Za-z0-9.-]` of the source's email pattern. -/
def domainChar (c : Char) : Bool :=
  isAsciiLetter c || isAsciiDigit c || c = '.' || c = '-'

/-- The TLD class the source actually wrote: `[A-Z|a-z]`.  Inside a character
class `|` is a literal, so this admits ASCII letters and the pipe. -/
def tldChar (c : Char) : Bool :=
  isAsciiLetter c || c = '|'

/-- Word-ness of an optional character; `none` stands for a string edge,
which is a non-word position for `\b`. -/
def wordB : Option Char → Bool
  | some c => isWordChar c
  | none => false

/-- Length of the maximal run of characters satisfying `p` at the front. -/
def runLen (p : Char → Bool) (cs : List Char) : Nat :=
  (cs.takeWhile p).length

/-! ## The regex matcher

`re.findall` on the fixed pattern.  The quantifier `[...]+` before the
literal `@` never benefits from backtracking (the local-part class does not
contain `@`), so it is a maximal run followed by an `@` test.  The domain
quantifier is followed by `\.` and its class contains `.`, so backtracking
is real: domain lengths are tried longest-first.  Likewise the TLD
quantifier is followed by `\b`, and lengths down to 2 are tried. -/

/-- Greedy `[A-Z|a-z]{2,}\b` at the front of `cs`: largest `t ≤ fuel` with
`2 ≤ t` such that a word boundary holds between `cs[t-1]` and `cs[t]`.
Called with `fuel` = the maximal `tldChar` run length. -/
def tldSearch (cs : List Char) : Nat → Option Nat
  | 0 => none
  | 1 => none
  | n + 2 =>
    if wordB cs[n+1]? != wordB cs[n+2]? then some (n + 2)
    else tldSearch cs (n + 1)

/-- Greedy `[A-Za-z0-9.-]+\.[A-Z|a-z]{2,}\b` at the front of `cs`: domain
lengths are tried from `k` down to 1; each needs a literal `.` next and then
a TLD match.  Returns the total number of characters consumed.  Called with
`k` = the maximal `domainChar` run length. -/
def domSearch (cs : List Char) : Nat → Option Nat
  | 0 => none
  | k + 1 =>
    if cs[k+1]? = some '.' then
      match tldSearch (cs.drop (k+2)) (runLen tldChar (cs.drop (k+2))) with
      | some t => some (k + 2 + t)
      | none => domSearch cs k
    else domSearch cs k

/-- Attempt the whole pattern at the front of `cs`, where `prev` is the
character just before this position (`none` at the start of the text).
Returns the length of the match. -/
def matchAt (prev : Option Char) (cs : List Char) : Option Nat :=
  match cs with
  | [] => none
  | c :: _ =>
    if wordB prev = wordB (some c) then none
    else
      let l := runLen localChar cs
      if l = 0 then none
      else if cs[l]? = some '@' then
        match domSearch (cs.drop (l+1)) (runLen domainChar (cs.drop (l+1))) with
        | some m => some (l + 1 + m)
        | none => none
      else none

/-- The `re.findall` scan: try the pattern at each position from left to
right; on a match emit it and resume just after its end.  `fuel` only
bounds the recursion; `cs.length + 1` is always enough. -/
def scanAux (fuel : Nat) (prev : Option Char) (cs : List Char) : List (List Char) :=
  match fuel with
  | 0 => []
  | fuel + 1 =>
    match cs with
    | [] => []
    | c :: rest =>
      match matchAt prev cs with
      | some n => cs.take n :: scanAux fuel cs[n-1]? (cs.drop n)
      | none => scanAux fuel (some c) rest

/-- `re.findall(email_pattern, text)` of the source, as a list of matches in
order of occurrence. -/
def findallEmails (s : String) : List String :=
  (scanAux (s.data.length + 1) none s.data).map String.mk

/-- `extract_emails_from_text` (lines 56-68): `set(re.findall(...))`.
The Python set is modelled as a `Finset`; deduplication is by exact string
equality, as in the source. -/
def extract_emails_from_text (s : String) : Finset String :=
  (findallEmails s).toFinset

/-! ## The email-shape grammar

`ShapeWith` describes the shape every string produced by the matcher has:
local-part, `@`, domain, `.`, and a TLD of two or more characters drawn from
the source's class `[A-Z|a-z]`.  `claimedEmailSet` is the set the
specification claims the extractor returns: it is written from the spec's
words (word-bounded substrings matching the grammar whose TLD class is
letters only, `[A-Za-z]{2,}`), for comparison against the code. -/

/-- Decomposition into `local ++ "@" ++ domain ++ "." ++ tld` where the TLD
uses the class `tc`.  Since neither TLD class contains a dot, the TLD is
necessarily the segment after the last dot. -/
def ShapeWith (tc : Char → Bool) (r : List Char) : Prop :=
  ∃ l d t : List Char,
    r = l ++ '@' :: (d ++ '.' :: t) ∧
    l ≠ [] ∧ l.all localChar = true ∧
    d ≠ [] ∧ d.all domainChar = true ∧
    2 ≤ t.length ∧ t.all tc = true

/-- The shape of the strings the source's extractor can return. -/
def EmailShapePipe (e : String) : Prop :=
  ShapeWith tldChar e.data

/-- Bool checker for the grammar with TLD class `tc`: the local part is the
segment before the first `@` and the TLD is the segment after the last dot
of the remainder (sound because no TLD class contains `.` and no class
contains `@`). -/
def grammarCheck (tc : Char → Bool) (cs : List Char) : Bool :=
  let l := cs.takeWhile (fun c => c != '@')
  let rest := cs.drop (l.length + 1)
  let t := (rest.reverse.takeWhile (fun c => c != '.')).reverse
  let d := rest.take (rest.length - t.length - 1)
  decide (l.length < cs.length) && !l.isEmpty && l.all localChar &&
    decide (t.length < rest.length) && !d.isEmpty && d.all domainChar &&
    decide (2 ≤ t.length) && t.all tc

/-- Python's `\b` at position `p` of the text `cs`: the word-ness of the
characters on the two sides of the position differs. -/
def boundaryAt (cs : List Char) (p : Nat) : Bool :=
  (if p = 0 then false else wordB cs[p-1]?) != wordB cs[p]?

/-- The set the specification claims `extract_emails_from_text` returns:
all word-bounded substrings of the input matching the claimed grammar
(local `[A-Za-z0-9._%+-]+`, `@`, domain `[A-Za-z0-9.-]+`, `.`, TLD
`[A-Za-z]{2,}` of letters only).  Written from the spec's words, for
comparison with the code's behaviour. -/
def claimedEmailSet (s : String) : Finset String :=
  let cs := s.data
  let n := cs.length
  ((List.range (n+1)).flatMap (fun i =>
    (List.range (n+1)).filterMap (fun j =>
      if i < j ∧ boundaryAt cs i = true ∧ boundaryAt cs j = true ∧
          grammarCheck isAsciiLetter ((cs.drop i).take (j - i)) = true
      then some (String.mk ((cs.drop i).take (j - i)))
      else none))).toFinset

/-! ## URL validation

`validate_linkedin_url` (lines 70-84) parses the URL with
`urllib.parse.urlparse` and checks `'linkedin.com' in parsed_url.netloc`
and `'/posts/' in parsed_url.path or '/feed/update/' in parsed_url.path`.
`urlparseM` models CPython's `urlsplit`/`urlparse` for the two fields the
scraper reads: strip leading C0 controls and spaces (CPython lstrips only),
remove tab, CR and LF everywhere, split off a valid scheme, take the
authority after `//` up to the first of `/?#` (raising
`ValueError "Invalid IPv6 URL"` when the authority has a bracket of one
kind without the other, as CPython has done in every version), drop the
fragment after the first `#` and the query after the first `?`, and drop
the parameters after a `;` in the last path segment — the latter only when
the scheme is in `uses_params`, as `urlparse` does.  (CPython's extra
checks that can only fire on non-ASCII input, and the bracketed-host
validation CPython 3.11 added for authorities containing both `[` and `]`,
are not modelled — the model follows CPython ≤ 3.10 there; no claim here
depends on either.) -/

/-- The two fields of the parse result the scraper reads. -/
structure UrlParts where
  netloc : String
  path : String

/-- The characters allowed after the first one in a URL scheme. -/
def schemeChar (c : Char) : Bool :=
  isAsciiLetter c || isAsciiDigit c || c = '+' || c = '-' || c = '.'

/-- All suffixes of a list, used for Python's substring test `in`. -/
def suffixes : List Char → List (List Char)
  | [] => [[]]
  | c :: rest => (c :: rest) :: suffixes rest

/-- Python's substring test `needle in hay`. -/
def containsStr (hay needle : String) : Bool :=
  (suffixes hay.data).any (fun t => needle.data.isPrefixOf t)

/-- The schemes for which `urlparse` splits `;parameters` off the path. -/
def uses_params : List String :=
  ["", "ftp", "hdl", "prospero", "http", "imap", "https", "shttp", "rtsp",
   "rtsps", "rtspu", "sip", "sips", "mms", "sftp", "tel"]

/-- CPython's `urlparse`, restricted to `netloc` and `path`; `Except.error`
models a raised `ValueError`. -/
def urlparseM (url : String) : Except String UrlParts :=
  let cs0 := url.data
  let cs1 := cs0.dropWhile (fun c => c ≤ ' ')
  let cs2 := cs1.filter (fun c => c != '\t' && c != '\r' && c != '\n')
  let beforeColon := cs2.takeWhile (fun c => c != ':')
  let hasScheme :=
    beforeColon.length < cs2.length && 0 < beforeColon.length &&
      (match beforeColon with
       | c :: _ => isAsciiLetter c
       | [] => false) &&
      beforeColon.all schemeChar
  let scheme := if hasScheme then String.mk (beforeColon.map Char.toLower) else ""
  let cs3 := if hasScheme then cs2.drop (beforeColon.length + 1) else cs2
  let hasAuthority := cs3.take 2 = ['/', '/']
  let netloc :=
    if hasAuthority then (cs3.drop 2).takeWhile (fun c => c != '/' && c != '?' && c != '#')
    else []
  let rest0 := if hasAuthority then (cs3.drop 2).drop netloc.length else cs3
  if (netloc.contains '[' != netloc.contains ']') then
    Except.error "Invalid IPv6 URL"
  else
    let rest1 := rest0.takeWhile (fun c => c != '#')
    let rest2 := rest1.takeWhile (fun c => c != '?')
    let path :=
      if uses_params.contains scheme && rest2.contains ';' then
        if rest2.contains '/' then
          let lastSlashIdx := rest2.length - 1 - (rest2.reverse.takeWhile (fun c => c != '/')).length
          let tail := rest2.drop lastSlashIdx
          let k := (tail.takeWhile (fun c => c != ';')).length
          if k < tail.length then rest2.take (lastSlashIdx + k) else rest2
        else rest2.takeWhile (fun c => c != ';')
      else rest2
    Except.ok ⟨String.mk netloc, String.mk path⟩

/-- `validate_linkedin_url` (lines 70-84).  A `ValueError` raised by
`urlparse` propagates out of the function, hence the `Except`. -/
def validate_linkedin_url (url : String) : Except String Bool :=
  match urlparseM url with
  | Except.error e => Except.error e
  | Except.ok parts =>
    Except.ok (containsStr parts.netloc "linkedin.com" &&
      (containsStr parts.path "/posts/" || containsStr parts.path "/feed/update/"))

/-! ## The comment-expansion loop

`load_all_comments` (lines 133-186).  The loop state is the pair of local
variables `last_height` and `attempts` (`retries = 3` is the constant bound).
One iteration scrolls, sleeps, measures `new_height` and then either takes
the `continue` branch (`new_height == last_height`: increment `attempts`,
skip the rest of the body — in particular skip the whole
expansion-control/selector pass) or updates `last_height`, resets `attempts`
and runs the selector pass.  The loop is driven by the sequence of heights
the page reports, modelled as an arbitrary function `heights : Nat → Nat`
giving the value measured in each iteration. -/

/-- The two local variables of `load_all_comments`. -/
structure LoopState where
  last_height : Nat
  attempts : Nat
deriving DecidableEq

/-- `retries = 3`: "Number of retries when no new content is loaded". -/
def retries : Nat := 3

/-- One measurement iteration of the loop body.  The boolean records
whether the expansion-control pass (the `show_more_selectors` loop) runs in
this iteration: the `continue` on equal heights skips it. -/
def stepLoop (st : LoopState) (newHeight : Nat) : LoopState × Bool :=
  if newHeight = st.last_height then
    ({ st with attempts := st.attempts + 1 }, false)
  else
    ({ last_height := newHeight, attempts := 0 }, true)

/-- The loop state after `n` measurement iterations, starting from
`last_height = 0`, `attempts = 0` and reading heights from `heights`. -/
def loopTrace (heights : Nat → Nat) : Nat → LoopState
  | 0 => ⟨0, 0⟩
  | n + 1 => (stepLoop (loopTrace heights n) (heights n)).1

/-- Whether the expansion-control pass runs in iteration `n` (0-based). -/
def passRuns (heights : Nat → Nat) (n : Nat) : Bool :=
  (stepLoop (loopTrace heights n) (heights n)).2

/-- The loop performs exactly `n` measurement iterations: the `while
attempts < retries` guard first fails after iteration `n`. -/
def exitsAfter (heights : Nat → Nat) (n : Nat) : Prop :=
  retries ≤ (loopTrace heights n).attempts ∧
    ∀ m < n, (loopTrace heights m).attempts < retries

instance (heights : Nat → Nat) (n : Nat) : Decidable (exitsAfter heights n) := by
  unfold exitsAfter
  infer_instance

/-! ## The comment harvester

`scrape_comments` (lines 216-254), after the page snapshot is parsed: the
document is modelled by the node texts each CSS selector returns, the
whole-document text, and the `script.string` payloads (`none` when a script
tag has no string). -/

/-- The parsed page snapshot, as the harvesting code reads it. -/
structure Soup where
  select : String → List String
  text : String
  scripts : List (Option String)

/-- `comment_selectors` (lines 220-227), in source order. -/
def comment_selectors : List String :=
  [".comments-comment-item",
   ".feed-shared-update-v2__commentary",
   ".comments-comment-item__main-content",
   "[data-test-id=\"comments-comment-item\"]",
   ".comment",
   ".social-details-social-activity"]

/-- `comments_found` after the selector loop: some selector matched. -/
def commentsFound (soup : Soup) : Bool :=
  comment_selectors.any (fun sel => !(soup.select sel).isEmpty)

/-- The harvesting passes of `scrape_comments` (lines 229-254): every
selector is evaluated in order and every match of every selector is fed to
the extractor (the loop has no break); the whole-page fallback runs only
when no selector matched; script payloads are always scanned. -/
def harvestEmails (soup : Soup) : Finset String :=
  let afterComments :=
    comment_selectors.foldl
      (fun acc sel =>
        (soup.select sel).foldl
          (fun a txt => a ∪ extract_emails_from_text txt) acc)
      ∅
  let afterFallback :=
    if commentsFound soup then afterComments
    else afterComments ∪ extract_emails_from_text soup.text
  soup.scripts.foldl
    (fun a s =>
      match s with
      | some str => a ∪ extract_emails_from_text str
      | none => a)
    afterFallback

/-- Modelled from the spec: the harvester the specification describes, in
which the first selector yielding at least one match is authoritative and
no later selector is processed, with the same fallback and script passes.
Written for comparison with `harvestEmails`. -/
def firstMatchHarvest (soup : Soup) : Finset String :=
  let base :=
    match (comment_selectors.map soup.select).find? (fun l => !l.isEmpty) with
    | some nodes => nodes.foldl (fun a txt => a ∪ extract_emails_from_text txt) ∅
    | none => extract_emails_from_text soup.text
  soup.scripts.foldl
    (fun a s =>
      match s with
      | some str => a ∪ extract_emails_from_text str
      | none => a)
    base

/-- A page on which the first and the third comment selector both match,
with distinct addresses in their nodes. -/
def soupTwoSelectors : Soup where
  select := fun sel =>
    if sel = ".comments-comment-item" then ["reach me at aa@mail.com"]
    else if sel = ".comments-comment-item__main-content" then ["or bb@mail.com"]
    else []
  text := ""
  scripts := []

/-! ## The result sink and the tail of `main`

`save_emails_to_file` (lines 266-280) writes `sorted(emails)` one address
per line in `'w'` mode, so the destination file afterwards holds exactly
the concatenation below (overwriting is implicit in returning the whole
content).  `main` (lines 320-328) only calls the sink when the set is
non-empty (`if emails:`). -/

/-- `sorted(emails)`: Python sorts strings lexicographically by code
point, which is exactly the order `≤` on `String`. -/
def sortedEmails (emails : Finset String) : List String :=
  emails.sort (· ≤ ·)

/-- The full content `save_emails_to_file` writes: each address followed
by a newline, in sorted order. -/
def save_emails_to_file (emails : Finset String) : String :=
  String.join ((sortedEmails emails).map (fun e => e ++ "\n"))

/-- The write decision at the end of `main`: `if emails:` guards both the
printing and the call to `save_emails_to_file`, so with an empty set no
file is written at all.  Returns the pair (destination, content) of the
performed write, or `none` when the sink is not invoked. -/
def mainSaveStep (emails : Finset String) (output : String) : Option (String × String) :=
  if emails.Nonempty then some (output, save_emails_to_file emails) else none

/-! ## The double exception handler

`load_all_comments` ends with two syntactically stacked `except Exception`
clauses (lines 182-186).  Python selects the first clause whose class
matches the raised exception; both clauses here have class `Exception`,
which matches everything.  The body outcome is `Except PyExc Unit`; the
observable result of the handler is the printed message. -/

/-- A Python exception value; every exception is an instance of
`Exception`, so the class test is only the matcher function. -/
structure PyExc where
  msg : String

/-- The matcher of an `except Exception` clause: it catches everything. -/
def catchesException : PyExc → Bool := fun _ => true

/-- Index of the first clause whose matcher accepts the exception, which is
the clause Python runs. -/
def selectClause (e : PyExc) : List (PyExc → Bool) → Option Nat
  | [] => none
  | m :: rest => if m e then some 0 else (selectClause e rest).map (· + 1)

/-- Run a try body against an ordered list of (matcher, handler) clauses:
on an exception the first matching clause handles it, otherwise it
propagates. -/
def runTry (body : Except PyExc Unit)
    (clauses : List ((PyExc → Bool) × (PyExc → Option String))) :
    Except PyExc (Option String) :=
  match body with
  | Except.ok _ => Except.ok none
  | Except.error e =>
    match clauses.find? (fun cl => cl.1 e) with
    | some cl => Except.ok (cl.2 e)
    | none => Except.error e

/-- The handler body both clauses share (line 183 and line 186). -/
def loadAllCommentsHandler (e : PyExc) : Option String :=
  some ("Error in load_all_comments: " ++ e.msg)

/-- `load_all_comments` as written: two stacked `except Exception` clauses. -/
def load_all_comments_double (body : Except PyExc Unit) : Except PyExc (Option String) :=
  runTry body [(catchesException, loadAllCommentsHandler),
               (catchesException, loadAllCommentsHandler)]

/-- The same function with a single try/except (swallow-and-report) region. -/
def load_all_comments_single (body : Except PyExc Unit) : Except PyExc (Option String) :=
  runTry body [(catchesException, loadAllCommentsHandler)]

/-! ## Helper lemmas about runs and takes -/

theorem runLen_le_length (p : Char → Bool) : ∀ cs : List Char, runLen p cs ≤ cs.length := by
  intro cs
  induction cs with
  | nil => simp [runLen]
  | cons c rest ih =>
    rw [runLen, List.takeWhile_cons]
    by_cases h : p c
    · simpa [h, runLen] using ih
    · simp [h]

theorem take_all_of_le_runLen (p : Char → Bool) :
    ∀ (cs : List Char) (k : Nat), k ≤ runLen p cs → (cs.take k).all p = true := by
  intro cs
  induction cs with
  | nil => intro k hk; simp
  | cons c rest ih =>
    intro k hk
    cases k with
    | zero => simp
    | succ k =>
      rw [runLen, List.takeWhile_cons] at hk
      by_cases h : p c
      · rw [List.take_succ_cons, List.all_cons, h, Bool.true_and]
        refine ih k ?_
        simpa [h, runLen] using hk
      · simp [h] at hk

theorem take_length_of_le {α : Type} (cs : List α) (k : Nat) (h : k ≤ cs.length) :
    (cs.take k).length = k := by
  rw [List.length_take]
  omega

theorem take_ne_nil_of_pos {α : Type} (cs : List α) (k : Nat) (hk : 0 < k)
    (h : k ≤ cs.length) : cs.take k ≠ [] := by
  have hl := take_length_of_le cs k h
  intro hnil
  rw [hnil] at hl
  simp at hl
  omega

theorem take_decomp {α : Type} (cs : List α) (a b : Nat) (x : α) (h : cs[a]? = some x) :
    cs.take (a + 1 + b) = cs.take a ++ x :: ((cs.drop (a + 1)).take b) := by
  obtain ⟨hlt, hx⟩ := List.getElem?_eq_some.mp h
  rw [show a + 1 + b = a + (b + 1) by omega, List.take_add]
  congr 1
  rw [List.drop_eq_getElem_cons hlt, List.take_succ_cons, hx]

/-! ## Soundness of the matcher: every match has the email shape -/

theorem tldSearch_sound (cs : List Char) :
    ∀ fuel t, tldSearch cs fuel = some t → 2 ≤ t ∧ t ≤ fuel := by
  intro fuel
  induction fuel with
  | zero => intro t h; simp [tldSearch] at h
  | succ k ih =>
    intro t h
    cases k with
    | zero => simp [tldSearch] at h
    | succ j =>
      rw [tldSearch] at h
      by_cases hb : (wordB cs[j+1]? != wordB cs[j+2]?) = true
      · rw [if_pos hb] at h
        cases h
        omega
      · rw [if_neg hb] at h
        have := ih t h
        omega

theorem domSearch_sound (cs2 : List Char) :
    ∀ fuel m, fuel ≤ runLen domainChar cs2 → domSearch cs2 fuel = some m →
      ∃ kd tl, m = kd + 2 + tl ∧ kd + 1 ≤ runLen domainChar cs2 ∧
        cs2[kd+1]? = some '.' ∧ 2 ≤ tl ∧ tl ≤ runLen tldChar (cs2.drop (kd+2)) := by
  intro fuel
  induction fuel with
  | zero => intro m hle h; simp [domSearch] at h
  | succ k ih =>
    intro m hle h
    rw [domSearch] at h
    by_cases hdot : cs2[k+1]? = some '.'
    · rw [if_pos hdot] at h
      cases htld : tldSearch (cs2.drop (k+2)) (runLen tldChar (cs2.drop (k+2))) with
      | some t =>
        rw [htld] at h
        cases h
        obtain ⟨ht2, htle⟩ := tldSearch_sound _ _ _ htld
        exact ⟨k, t, rfl, hle, hdot, ht2, htle⟩
      | none =>
        rw [htld] at h
        exact ih m (by omega) h
    · rw [if_neg hdot] at h
      exact ih m (by omega) h

theorem matchAt_shape (prev : Option Char) (cs : List Char) (n : Nat)
    (h : matchAt prev cs = some n) : ShapeWith tldChar (cs.take n) := by
  match cs with
  | [] => simp [matchAt] at h
  | c :: rest =>
    rw [matchAt] at h
    by_cases hb : wordB prev = wordB (some c)
    · rw [if_pos hb] at h
      exact absurd h (by simp)
    · rw [if_neg hb] at h
      by_cases hl0 : runLen localChar (c :: rest) = 0
      · rw [if_pos hl0] at h
        exact absurd h (by simp)
      · rw [if_neg hl0] at h
        by_cases hat : (c :: rest)[runLen localChar (c :: rest)]? = some '@'
        · rw [if_pos hat] at h
          cases hdom : domSearch ((c :: rest).drop (runLen localChar (c :: rest) + 1))
              (runLen domainChar ((c :: rest).drop (runLen localChar (c :: rest) + 1))) with
          | some m =>
            rw [hdom] at h
            cases h
            obtain ⟨kd, tl, hm, hkd, hdot, htl2, htlle⟩ :=
              domSearch_sound _ _ m (le_refl _) hdom
            set cs := c :: rest with hcs
            set l := runLen localChar cs with hldef
            set cs2 := cs.drop (l + 1) with hcs2
            have hlen2 : runLen domainChar cs2 ≤ cs2.length := runLen_le_length _ _
            have hlen3 : runLen tldChar (cs2.drop (kd+2)) ≤ (cs2.drop (kd+2)).length :=
              runLen_le_length _ _
            have hllt : l < cs.length := (List.getElem?_eq_some.mp hat).1
            refine ⟨cs.take l, cs2.take (kd+1), (cs2.drop (kd+2)).take tl, ?_, ?_, ?_, ?_, ?_, ?_, ?_⟩
            · rw [hm, show l + 1 + (kd + 2 + tl) = l + 1 + ((kd + 1) + 1 + tl) by omega]
              rw [take_decomp cs l ((kd+1) + 1 + tl) '@' hat]
              rw [take_decomp cs2 (kd+1) tl '.' hdot]
            · exact take_ne_nil_of_pos cs l (by omega) (by omega)
            · exact take_all_of_le_runLen localChar cs l (le_refl _)
            · exact take_ne_nil_of_pos cs2 (kd+1) (by omega) (by omega)
            · exact take_all_of_le_runLen domainChar cs2 (kd+1) hkd
            · rw [take_length_of_le _ tl (by omega)]
              exact htl2
            · exact take_all_of_le_runLen tldChar (cs2.drop (kd+2)) tl htlle
          | none =>
            rw [hdom] at h
            exact absurd h (by simp)
        · rw [if_neg hat] at h
          exact absurd h (by simp)

theorem scanAux_shape :
    ∀ (fuel : Nat) (prev : Option Char) (cs : List Char) (r : List Char),
      r ∈ scanAux fuel prev cs → ShapeWith tldChar r := by
  intro fuel
  induction fuel with
  | zero => intro prev cs r hr; simp [scanAux] at hr
  | succ fuel ih =>
    intro prev cs r hr
    match cs with
    | [] => simp [scanAux] at hr
    | c :: rest =>
      rw [scanAux] at hr
      cases hm : matchAt prev (c :: rest) with
      | some n =>
        rw [hm] at hr
        rcases List.mem_cons.mp hr with heq | htail
        · rw [heq]
          exact matchAt_shape prev (c :: rest) n hm
        · exact ih _ _ r htail
      | none =>
        rw [hm] at hr
        exact ih _ _ r hr

/-! ## Helper lemmas about the loop trace and about folded unions -/

theorem loopTrace_zero (heights : Nat → Nat) : loopTrace heights 0 = ⟨0, 0⟩ := rfl

theorem loopTrace_succ (heights : Nat → Nat) (n : Nat) :
    loopTrace heights (n + 1) = (stepLoop (loopTrace heights n) (heights n)).1 := rfl

theorem loopTrace_succ_eq (heights : Nat → Nat) (n : Nat)
    (h : heights n = (loopTrace heights n).last_height) :
    loopTrace heights (n + 1) =
      ⟨(loopTrace heights n).last_height, (loopTrace heights n).attempts + 1⟩ := by
  rw [loopTrace_succ, stepLoop, if_pos h]

theorem loopTrace_succ_ne (heights : Nat → Nat) (n : Nat)
    (h : ¬ heights n = (loopTrace heights n).last_height) :
    loopTrace heights (n + 1) = ⟨heights n, 0⟩ := by
  rw [loopTrace_succ, stepLoop, if_neg h]

theorem foldl_acc_subset {α β : Type} [DecidableEq β] (g : α → Finset β → Finset β)
    (hmono : ∀ (a : Finset β) (x : α), a ⊆ g x a) :
    ∀ (l : List α) (acc : Finset β), acc ⊆ l.foldl (fun a x => g x a) acc := by
  intro l
  induction l with
  | nil => intro acc; simp
  | cons x xs ih => intro acc; exact (hmono acc x).trans (ih (g x acc))

theorem mem_foldl_of_mem {α β : Type} [DecidableEq β] (g : α → Finset β → Finset β)
    (hmono : ∀ (a : Finset β) (x : α), a ⊆ g x a) (e : β) (x : α)
    (hx : ∀ acc : Finset β, e ∈ g x acc) :
    ∀ (l : List α) (acc : Finset β), x ∈ l → e ∈ l.foldl (fun a y => g y a) acc := by
  intro l
  induction l with
  | nil => intro acc h; simp at h
  | cons y ys ih =>
    intro acc hmem
    rcases List.mem_cons.mp hmem with heq | htail
    · subst heq
      exact foldl_acc_subset g hmono ys (g x acc) (hx acc)
    · exact ih (g y acc) htail

/-! ## Claim theorems -/

/-- C4: the expansion loop maintains the `ExpansionState` invariant: a
measurement strictly greater than `last_height` updates `last_height` and
resets `attempts` to 0; an unchanged measurement increments `attempts`;
and the loop exits exactly when `attempts` first reaches the threshold
`retries = 3`. -/
theorem expansion_state_invariant :
    (∀ (st : LoopState) (h : Nat), st.last_height < h →
        (stepLoop st h).1 = ⟨h, 0⟩) ∧
    (∀ (st : LoopState) (h : Nat), h = st.last_height →
        (stepLoop st h).1 = ⟨st.last_height, st.attempts + 1⟩) ∧
    (∀ (heights : Nat → Nat) (n : Nat),
        exitsAfter heights n ↔
          ((loopTrace heights n).attempts = retries ∧
            ∀ m < n, (loopTrace heights m).attempts < retries)) := by
  refine ⟨?_, ?_, ?_⟩
  · intro st h hgt
    rw [stepLoop, if_neg (by omega)]
  · intro st h heq
    rw [stepLoop, if_pos heq]
  · intro heights n
    constructor
    · rintro ⟨hge, hall⟩
      refine ⟨?_, hall⟩
      cases n with
      | zero =>
        rw [loopTrace_zero] at hge
        simp [retries] at hge
      | succ k =>
        have hk := hall k (Nat.lt_succ_self k)
        by_cases hc : heights k = (loopTrace heights k).last_height
        · rw [loopTrace_succ_eq heights k hc] at hge ⊢
          simp only [retries] at hge hk ⊢
          omega
        · rw [loopTrace_succ_ne heights k hc] at hge
          simp [retries] at hge
    · rintro ⟨heq, hall⟩
      exact ⟨le_of_eq heq.symm, hall⟩

/-- Witness for `expansion_state_invariant`: the three parts applied at
concrete states and at the constant-zero height sequence. -/
theorem expansion_state_invariant_witness :
    ((0 : Nat) < 5 ∧ (stepLoop ⟨0, 0⟩ 5).1 = ⟨5, 0⟩) ∧
    ((7 : Nat) = 7 ∧ (stepLoop ⟨7, 1⟩ 7).1 = ⟨7, 2⟩) ∧
    exitsAfter (fun _ => 0) 3 :=
  ⟨⟨by decide, expansion_state_invariant.1 ⟨0, 0⟩ 5 (by decide)⟩,
   ⟨rfl, expansion_state_invariant.2.1 ⟨7, 1⟩ 7 rfl⟩,
   (expansion_state_invariant.2.2 (fun _ => 0) 3).mpr ⟨by decide, by decide⟩⟩

/-- C3 counterexample: on a document whose measured extent never changes
(constantly 100), the loop performs four measurement iterations, not the
claimed three: the first measurement differs from the initial
`last_height = 0`, so it resets `attempts` once before the three no-growth
iterations. -/
theorem loop_const_height_not_three_iterations :
    exitsAfter (fun _ => 100) 4 ∧ ¬ exitsAfter (fun _ => 100) 3 := by decide

/-- C3 (amended): on a document whose measured extent is constant, the loop
performs exactly `retries = 3` measurement iterations when the constant
equals the initial `last_height` value 0, and exactly `retries + 1 = 4`
iterations when it is non-zero; in particular it never performs zero
iterations. -/
theorem loop_const_height_iterations (heights : Nat → Nat) (h : Nat)
    (hconst : ∀ n, heights n = h) :
    (h = 0 → exitsAfter heights 3) ∧ (h ≠ 0 → exitsAfter heights 4) := by
  constructor
  · intro hz
    subst hz
    have e1 : loopTrace heights 1 = ⟨0, 1⟩ := by
      rw [loopTrace_succ_eq heights 0 (by rw [loopTrace_zero, hconst 0])]
      rw [loopTrace_zero]
    have e2 : loopTrace heights 2 = ⟨0, 2⟩ := by
      rw [loopTrace_succ_eq heights 1 (by rw [e1, hconst 1])]
      rw [e1]
    have e3 : loopTrace heights 3 = ⟨0, 3⟩ := by
      rw [loopTrace_succ_eq heights 2 (by rw [e2, hconst 2])]
      rw [e2]
    refine ⟨by rw [e3]; simp [retries], ?_⟩
    intro m hm
    interval_cases m
    · rw [loopTrace_zero]; simp [retries]
    · rw [e1]; simp [retries]
    · rw [e2]; simp [retries]
  · intro hnz
    have e1 : loopTrace heights 1 = ⟨h, 0⟩ := by
      rw [loopTrace_succ_ne heights 0 (by rw [loopTrace_zero, hconst 0]; simpa using hnz)]
      rw [hconst 0]
    have e2 : loopTrace heights 2 = ⟨h, 1⟩ := by
      rw [loopTrace_succ_eq heights 1 (by rw [e1, hconst 1])]
      rw [e1]
    have e3 : loopTrace heights 3 = ⟨h, 2⟩ := by
      rw [loopTrace_succ_eq heights 2 (by rw [e2, hconst 2])]
      rw [e2]
    have e4 : loopTrace heights 4 = ⟨h, 3⟩ := by
      rw [loopTrace_succ_eq heights 3 (by rw [e3, hconst 3])]
      rw [e3]
    refine ⟨by rw [e4]; simp [retries], ?_⟩
    intro m hm
    interval_cases m
    · rw [loopTrace_zero]; simp [retries]
    · rw [e1]; simp [retries]
    · rw [e2]; simp [retries]
    · rw [e3]; simp [retries]

/-- Witness for `loop_const_height_iterations`: at the constant height 100
the loop exits after exactly four iterations. -/
theorem loop_const_height_iterations_witness :
    (100 : Nat) ≠ 0 ∧ exitsAfter (fun _ => 100) 4 :=
  ⟨by decide, (loop_const_height_iterations (fun _ => 100) 100 (fun _ => rfl)).2 (by decide)⟩

/-- C5: on a simulated document whose measured extent strictly grows on the
first three measurement iterations and then stays constant, the loop
performs exactly `3 + retries = 6` measurement iterations before exiting. -/
theorem loop_growth_then_plateau_six_iterations (heights : Nat → Nat)
    (h0 : 0 < heights 0) (h01 : heights 0 < heights 1) (h12 : heights 1 < heights 2)
    (hplateau : ∀ n, 3 ≤ n → heights n = heights 2) :
    exitsAfter heights 6 := by
  have e1 : loopTrace heights 1 = ⟨heights 0, 0⟩ := by
    rw [loopTrace_succ_ne heights 0 (by rw [loopTrace_zero]; simp; omega)]
  have e2 : loopTrace heights 2 = ⟨heights 1, 0⟩ := by
    rw [loopTrace_succ_ne heights 1 (by rw [e1]; simp; omega)]
  have e3 : loopTrace heights 3 = ⟨heights 2, 0⟩ := by
    rw [loopTrace_succ_ne heights 2 (by rw [e2]; simp; omega)]
  have e4 : loopTrace heights 4 = ⟨heights 2, 1⟩ := by
    rw [loopTrace_succ_eq heights 3 (by rw [e3]; simp [hplateau 3 (by omega)])]
    rw [e3]
  have e5 : loopTrace heights 5 = ⟨heights 2, 2⟩ := by
    rw [loopTrace_succ_eq heights 4 (by rw [e4]; simp [hplateau 4 (by omega)])]
    rw [e4]
  have e6 : loopTrace heights 6 = ⟨heights 2, 3⟩ := by
    rw [loopTrace_succ_eq heights 5 (by rw [e5]; simp [hplateau 5 (by omega)])]
    rw [e5]
  refine ⟨by rw [e6]; simp [retries], ?_⟩
  intro m hm
  interval_cases m
  · rw [loopTrace_zero]; simp [retries]
  · rw [e1]; simp [retries]
  · rw [e2]; simp [retries]
  · rw [e3]; simp [retries]
  · rw [e4]; simp [retries]
  · rw [e5]; simp [retries]

/-- Witness for `loop_growth_then_plateau_six_iterations`: heights
1, 2, 3, 3, 3, ... exit after exactly six iterations. -/
theorem loop_growth_then_plateau_witness :
    (0 : Nat) < min 1 3 ∧ exitsAfter (fun k => min (k + 1) 3) 6 :=
  ⟨by decide,
   loop_growth_then_plateau_six_iterations (fun k => min (k + 1) 3)
     (by decide) (by decide) (by decide)
     (fun n hn => by simpa using Nat.min_eq_right (by omega))⟩

/-- C1 counterexample: with a constantly measured height of 100, iteration 1
(0-based) of the loop executes (the guard `attempts < retries` holds), its
measured extent equals `last_height`, and the expansion-control pass does
not run in it — the `continue` skips the selector pass. -/
theorem expansion_pass_skipped_on_no_growth :
    (loopTrace (fun _ => 100) 1).attempts < retries ∧
    passRuns (fun _ => 100) 1 = false := by decide

/-- C1 (amended): in each iteration of the expansion loop, the
expansion-control pass (the `show_more_selectors` loop) runs exactly when
the measured document extent differs from `last_height` — it runs when the
extent grew or shrank, and is skipped by the `continue` when the extent is
unchanged. -/
theorem passRuns_iff_extent_changed (heights : Nat → Nat) (n : Nat) :
    passRuns heights n = true ↔ heights n ≠ (loopTrace heights n).last_height := by
  rw [passRuns, stepLoop]
  by_cases h : heights n = (loopTrace heights n).last_height
  · simp [h]
  · simp [h]

/-- C2 counterexample: on a page where both the first and the third comment
selector match, the address that occurs only in the third selector's node is
still harvested, and the harvest differs from the first-match-only harvest
the specification describes. -/
theorem harvester_uses_later_selectors :
    "bb@mail.com" ∈ harvestEmails soupTwoSelectors ∧
    "bb@mail.com" ∉ firstMatchHarvest soupTwoSelectors ∧
    harvestEmails soupTwoSelectors ≠ firstMatchHarvest soupTwoSelectors := by decide

/-- C2 (amended): the harvester evaluates every selector in
`comment_selectors` in order and every matching selector contributes: any
email extracted from any node text of any selector in the list is in the
harvested set (no first-match cut-off). -/
theorem harvest_includes_every_selector (soup : Soup) (sel txt e : String)
    (hsel : sel ∈ comment_selectors) (htxt : txt ∈ soup.select sel)
    (he : e ∈ extract_emails_from_text txt) : e ∈ harvestEmails soup := by
  have hinner : ∀ acc : Finset String,
      e ∈ (soup.select sel).foldl (fun a t => a ∪ extract_emails_from_text t) acc := by
    intro acc
    exact mem_foldl_of_mem (fun t a => a ∪ extract_emails_from_text t)
      (fun a t => Finset.subset_union_left) e txt
      (fun a => Finset.mem_union_right a he) (soup.select sel) acc htxt
  have h1 : e ∈ comment_selectors.foldl
      (fun acc s => (soup.select s).foldl (fun a t => a ∪ extract_emails_from_text t) acc) ∅ := by
    exact mem_foldl_of_mem
      (fun s a => (soup.select s).foldl (fun x t => x ∪ extract_emails_from_text t) a)
      (fun a s => foldl_acc_subset (fun t x => x ∪ extract_emails_from_text t)
        (fun x t => Finset.subset_union_left) (soup.select s) a)
      e sel hinner comment_selectors ∅ hsel
  rw [harvestEmails]
  have h2 : e ∈
      (if commentsFound soup then
        comment_selectors.foldl
          (fun acc s => (soup.select s).foldl (fun a t => a ∪ extract_emails_from_text t) acc) ∅
       else
        comment_selectors.foldl
          (fun acc s => (soup.select s).foldl (fun a t => a ∪ extract_emails_from_text t) acc) ∅
          ∪ extract_emails_from_text soup.text) := by
    by_cases hf : commentsFound soup
    · rw [if_pos hf]; exact h1
    · rw [if_neg hf]; exact Finset.mem_union_left _ h1
  exact foldl_acc_subset
    (fun s a =>
      match s with
      | some str => a ∪ extract_emails_from_text str
      | none => a)
    (fun a s => by
      cases s with
      | some str => exact Finset.subset_union_left
      | none => exact subset_rfl)
    soup.scripts _ h2

/-- Witness for `harvest_includes_every_selector`: the third selector's
node text on `soupTwoSelectors` contributes its address. -/
theorem harvest_includes_every_selector_witness :
    ".comments-comment-item__main-content" ∈ comment_selectors ∧
    "or bb@mail.com" ∈ soupTwoSelectors.select ".comments-comment-item__main-content" ∧
    "bb@mail.com" ∈ extract_emails_from_text "or bb@mail.com" ∧
    "bb@mail.com" ∈ harvestEmails soupTwoSelectors :=
  ⟨by decide, by decide, by decide,
   harvest_includes_every_selector soupTwoSelectors
     ".comments-comment-item__main-content" "or bb@mail.com" "bb@mail.com"
     (by decide) (by decide) (by decide)⟩

/-- C6 counterexample: on the input `"x a@b.ab|cd y"` the extractor returns
`{"a@b.ab|cd"}` — the TLD quantifier's class `[A-Z|a-z]` admits `|` — while
the set of word-bounded substrings matching the claimed grammar (TLD
`[A-Za-z]{2,}`, letters only) is `{"a@b.ab"}`; the returned set is not the
claimed set, and the returned string does not belong to it. -/
theorem extract_emails_returns_pipe_tld :
    extract_emails_from_text "x a@b.ab|cd y" ≠ claimedEmailSet "x a@b.ab|cd y" ∧
    "a@b.ab|cd" ∈ extract_emails_from_text "x a@b.ab|cd y" ∧
    "a@b.ab|cd" ∉ claimedEmailSet "x a@b.ab|cd y" := by decide

/-- C6 (amended): every string in the set returned by
`extract_emails_from_text` matches local-part `[A-Za-z0-9._%+-]+`, `@`,
domain `[A-Za-z0-9.-]+`, a dot, and a TLD of two or more characters drawn
from the class the code actually wrote, `[A-Z|a-z]` (ASCII letters and the
literal `|`); the result is a set, deduplicated by exact string equality
with no case normalisation.  (The returned set need not contain every
word-bounded grammar match: the scan is leftmost and non-overlapping.) -/
theorem extract_emails_shape (s e : String)
    (h : e ∈ extract_emails_from_text s) : EmailShapePipe e := by
  rw [extract_emails_from_text, List.mem_toFinset, findallEmails] at h
  obtain ⟨r, hr, hmk⟩ := List.mem_map.mp h
  have hd : e.data = r := by rw [← hmk]
  rw [EmailShapePipe, hd]
  exact scanAux_shape _ _ _ r hr

/-- Witness for `extract_emails_shape`: the extractor finds `"a@b.co"` in a
sample text and that string has the email shape. -/
theorem extract_emails_shape_witness :
    "a@b.co" ∈ extract_emails_from_text "contact a@b.co now" ∧ EmailShapePipe "a@b.co" :=
  ⟨by decide, extract_emails_shape "contact a@b.co now" "a@b.co" (by decide)⟩

/-- C7 counterexample: `validate_linkedin_url` does not fail closed on every
malformed URL: an authority with a `[` and no `]` makes `urlparse` raise
`ValueError("Invalid IPv6 URL")`, which propagates out of the validator
instead of returning `False`. -/
theorem validate_raises_invalid_ipv6 :
    validate_linkedin_url "https://[abc/posts/x" = Except.error "Invalid IPv6 URL" := by rfl

/-- C7 (amended): whenever `urlparse` returns normally, the validator
returns true exactly when the parsed netloc contains `"linkedin.com"` and
the parsed path contains `"/posts/"` or `"/feed/update/"`; the four example
URLs behave as the specification lists.  Malformed URLs that `urlparse`
still parses yield false, but URLs whose authority has mismatched square
brackets raise instead of returning false. -/
theorem validate_linkedin_url_spec :
    (∀ (url : String) (parts : UrlParts), urlparseM url = Except.ok parts →
      (validate_linkedin_url url = Except.ok true ↔
        (containsStr parts.netloc "linkedin.com" = true ∧
          (containsStr parts.path "/posts/" = true ∨
            containsStr parts.path "/feed/update/" = true)))) ∧
    validate_linkedin_url "https://www.example.com/posts/123" = Except.ok false ∧
    validate_linkedin_url "https://www.linkedin.com/posts/abc123" = Except.ok true ∧
    validate_linkedin_url "https://www.linkedin.com/feed/update/urn:li:activity:1" = Except.ok true ∧
    validate_linkedin_url "https://www.linkedin.com/in/someone" = Except.ok false := by
  refine ⟨?_, by rfl, by rfl, by rfl, by rfl⟩
  intro url parts hp
  rw [validate_linkedin_url, hp]
  simp [Bool.and_eq_true, Bool.or_eq_true]

/-- Witness for `validate_linkedin_url_spec`: the characterisation applied
to the parsed form of the first valid example URL. -/
theorem validate_linkedin_url_spec_witness :
    urlparseM "https://www.linkedin.com/posts/abc123" =
      Except.ok ⟨"www.linkedin.com", "/posts/abc123"⟩ ∧
    (validate_linkedin_url "https://www.linkedin.com/posts/abc123" = Except.ok true ↔
      (containsStr "www.linkedin.com" "linkedin.com" = true ∧
        (containsStr "/posts/abc123" "/posts/" = true ∨
          containsStr "/posts/abc123" "/feed/update/" = true))) :=
  ⟨by rfl,
   validate_linkedin_url_spec.1 "https://www.linkedin.com/posts/abc123"
     ⟨"www.linkedin.com", "/posts/abc123"⟩ (by rfl)⟩

/-- C8 counterexample: when the scrape yields an empty email set, the tail
of `main` does not invoke the result sink at all — `if emails:` is false —
so no (empty) output file is written, contrary to the claim. -/
theorem main_empty_set_writes_nothing :
    mainSaveStep (∅ : Finset String) "scraped_emails.txt" = none ∧
    mainSaveStep (∅ : Finset String) "scraped_emails.txt" ≠
      some ("scraped_emails.txt", "") := by decide

/-- C8 (amended): `main` invokes the result sink exactly when the scraped
email set is non-empty; on an empty set it skips the sink (printing a
no-emails message instead), so no output file — empty or otherwise — is
written. -/
theorem mainSaveStep_iff_nonempty :
    (∀ (emails : Finset String) (out : String),
      (mainSaveStep emails out).isSome = true ↔ emails.Nonempty) ∧
    (∀ out : String, mainSaveStep ∅ out = none) := by
  constructor
  · intro emails out
    rw [mainSaveStep]
    by_cases h : emails.Nonempty
    · simp [h]
    · simp [h]
  · intro out
    rw [mainSaveStep]
    simp

/-- C9: the sink writes the addresses one per line, each line terminated by
a newline, in lexicographically sorted order with no duplicates, and the
lines are exactly the members of the set; for `{"z@x.com", "a@x.com"}` the
written content is exactly `"a@x.com\nz@x.com\n"`.  Overwriting of the
destination is modelled by the function returning the entire final file
content. -/
theorem save_emails_to_file_spec :
    (∀ emails : Finset String,
      List.Sorted (· ≤ ·) (sortedEmails emails) ∧
      (sortedEmails emails).Nodup ∧
      (sortedEmails emails).toFinset = emails) ∧
    save_emails_to_file {"z@x.com", "a@x.com"} = "a@x.com\nz@x.com\n" := by
  constructor
  · intro emails
    exact ⟨Finset.sort_sorted _ _, Finset.sort_nodup _ _, Finset.sort_toFinset _ _⟩
  · have hset : ({"z@x.com", "a@x.com"} : Finset String) =
        (["a@x.com", "z@x.com"] : List String).toFinset := by decide
    have hsorted : (["a@x.com", "z@x.com"] : List String).Sorted (· ≤ ·) := by
      simp [List.sorted_cons, String.le_iff_toList_le]
      decide
    have hsort : sortedEmails {"z@x.com", "a@x.com"} = ["a@x.com", "z@x.com"] := by
      rw [sortedEmails, hset]
      exact (List.toFinset_sort (· ≤ ·) (by decide)).mpr hsorted
    rw [save_emails_to_file, hsort]
    rfl

/-- C10: the second of the two stacked `except Exception` clauses at the end
of `load_all_comments` is unreachable — clause selection always picks the
first clause — and the function is behaviourally equivalent to the same
function with a single try/except region. -/
theorem double_except_clause_equiv :
    (∀ body : Except PyExc Unit,
      load_all_comments_double body = load_all_comments_single body) ∧
    (∀ e : PyExc, selectClause e [catchesException, catchesException] = some 0) := by
  constructor
  · intro body
    cases body with
    | ok a => rfl
    | error e => rfl
  · intro e
    rfl
